import Mathlib

/-!
Verification of the graig activity-bot core against its specification.

The Python source is shallowly embedded:
* strings are `String`/`List Char`; Python `int` is `Int` (or `Nat` where the
  source value is a count);
* `datetime` values are modelled by `PyDt`: the wall-clock fields in
  microseconds plus an optional UTC offset (`none` = naive); float
  `total_seconds()` arithmetic is modelled exactly on integers (all inputs the
  code produces are whole microseconds);
* MongoDB collections are lists of documents; aggregation pipelines are
  translated stage by stage ($match = filter, $unwind = join of per-document
  lists, $group = fold over first-occurrence-deduplicated keys, $sort =
  insertion sort, $limit/to_list = take).  Where Mongo leaves an order
  unspecified (group output order, ties under $sort) the model fixes one
  deterministic choice; no theorem below depends on that choice;
* the two regexes of utils.py are compiled by hand into deterministic
  scanners (`matchCustom`, emoji-range runs); `\w` and `\d` are modelled by
  their ASCII cores, which is exact for every input analysed here;
* HTTP calls are modelled by passing the response (status and decoded body)
  as an argument; the network/url plumbing carries no logic.
-/

/-! ### utils.py : emoji extraction -/

/-- Model of Python `\w` (word character) for the custom-emoji regex. -/
def isWordChar (c : Char) : Bool := c.isAlphanum || c == '_'

/-- Model of Python `\d` (decimal digit). -/
def isDigitChar (c : Char) : Bool := c.isDigit

/-- Membership of a code point in the nine emoji block ranges of
`UNICODE_EMOJI_PATTERN` in utils.py. -/
def isEmojiChar (c : Char) : Bool :=
  (0x1F600 ≤ c.toNat && c.toNat ≤ 0x1F64F) ||   -- emoticons
  (0x1F300 ≤ c.toNat && c.toNat ≤ 0x1F5FF) ||   -- symbols & pictographs
  (0x1F680 ≤ c.toNat && c.toNat ≤ 0x1F6FF) ||   -- transport & map
  (0x1F1E0 ≤ c.toNat && c.toNat ≤ 0x1F1FF) ||   -- flags
  (0x1F900 ≤ c.toNat && c.toNat ≤ 0x1F9FF) ||   -- supplemental symbols
  (0x1FA00 ≤ c.toNat && c.toNat ≤ 0x1FA6F) ||   -- chess symbols
  (0x1FA70 ≤ c.toNat && c.toNat ≤ 0x1FAFF) ||   -- symbols extended
  (0x2702 ≤ c.toNat && c.toNat ≤ 0x27B0) ||     -- dingbats
  (0x2600 ≤ c.toNat && c.toNat ≤ 0x26FF)        -- misc symbols

/-- Tail of the custom-emoji regex `<a?:\w+:\d+>` after the opening `<`,
optional `a` and first `:` have been consumed (`pre` chars so far): a
nonempty `\w+` run, `:`, a nonempty `\d+` run, `>`.  Returns the total match
length.  The regex is deterministic here: `\w+`/`\d+` must be the maximal
runs since `:`/`>` are not word characters. -/
def matchAfterColon (pre : Nat) (r2 : List Char) : Option Nat :=
  let w := r2.takeWhile isWordChar
  let r3 := r2.dropWhile isWordChar
  if w.isEmpty then none else
  match r3 with
  | ':' :: r4 =>
    let d := r4.takeWhile isDigitChar
    let r5 := r4.dropWhile isDigitChar
    if d.isEmpty then none else
    match r5 with
    | '>' :: _ => some (pre + w.length + 1 + d.length + 1)
    | _ => none
  | _ => none

/-- Length of the match of `CUSTOM_EMOJI_PATTERN = <a?:\w+:\d+>` anchored at
the head of the input, if any.  `a?` is deterministic: the `a` branch is
taken exactly when the next two characters are `a:`. -/
def matchCustom : List Char → Option Nat
  | '<' :: 'a' :: ':' :: r2 => matchAfterColon 3 r2
  | '<' :: ':' :: r2 => matchAfterColon 2 r2
  | _ => none

theorem length_dropWhile_le (p : Char → Bool) (l : List Char) :
    (l.dropWhile p).length ≤ l.length := by
  induction l with
  | nil => simp
  | cons a t ih =>
    rw [List.dropWhile_cons]
    split
    · exact le_trans ih (Nat.le_succ _)
    · exact le_refl _

theorem matchAfterColon_pos {pre : Nat} {r2 : List Char} {n : Nat}
    (h : matchAfterColon pre r2 = some n) : 0 < n := by
  unfold matchAfterColon at h
  dsimp only at h
  split at h
  · exact absurd h (by simp)
  · split at h
    · split at h
      · exact absurd h (by simp)
      · split at h
        · simp only [Option.some.injEq] at h
          omega
        · exact absurd h (by simp)
    · exact absurd h (by simp)

theorem matchCustom_pos {s : List Char} {n : Nat}
    (h : matchCustom s = some n) : 0 < n := by
  unfold matchCustom at h
  split at h
  · exact matchAfterColon_pos h
  · exact matchAfterColon_pos h
  · exact absurd h (by simp)

/-- Fuel-indexed worker for `re.findall` of the custom-emoji pattern: scan
left to right, emit each non-overlapping match, resume after the match end.
Structural recursion on the fuel keeps the function kernel-computable; any
fuel at least the input length gives the scan's value. -/
def findallCustomF : Nat → List Char → List (List Char)
  | _, [] => []
  | 0, _ :: _ => []
  | fuel + 1, c :: t =>
    match matchCustom (c :: t) with
    | some n => (c :: t).take n :: findallCustomF fuel ((c :: t).drop n)
    | none => findallCustomF fuel t

theorem findallCustomF_congr :
    ∀ (fuel₁ fuel₂ : Nat) (s : List Char), s.length ≤ fuel₁ → s.length ≤ fuel₂ →
      findallCustomF fuel₁ s = findallCustomF fuel₂ s := by
  intro fuel₁
  induction fuel₁ with
  | zero =>
    intro fuel₂ s h1 _
    have : s = [] := List.length_eq_zero.mp (Nat.le_zero.mp h1)
    subst this
    cases fuel₂ <;> rfl
  | succ f ih =>
    intro fuel₂ s h1 h2
    cases s with
    | nil => cases fuel₂ <;> rfl
    | cons c t =>
      cases fuel₂ with
      | zero => simp at h2
      | succ f₂ =>
        simp only [findallCustomF]
        cases hm : matchCustom (c :: t) with
        | some n =>
          have hn := matchCustom_pos hm
          simp only [List.length_cons] at h1 h2
          have hd : ((c :: t).drop n).length ≤ f := by
            simp only [List.length_drop, List.length_cons]; omega
          have hd₂ : ((c :: t).drop n).length ≤ f₂ := by
            simp only [List.length_drop, List.length_cons]; omega
          dsimp only
          rw [ih f₂ _ hd hd₂]
        | none =>
          simp only [List.length_cons] at h1 h2
          dsimp only
          exact ih f₂ t (by omega) (by omega)

/-- `re.findall` of `CUSTOM_EMOJI_PATTERN`: left-to-right non-overlapping
matches. -/
def findallCustom (s : List Char) : List (List Char) :=
  findallCustomF s.length s

/-- Fuel-indexed worker for `re.findall` of `UNICODE_EMOJI_PATTERN =
[ranges]+`: each match is a maximal nonempty run of characters inside the
emoji ranges. -/
def findallUnicodeF : Nat → List Char → List (List Char)
  | _, [] => []
  | 0, _ :: _ => []
  | fuel + 1, c :: t =>
    if isEmojiChar c then
      (c :: t.takeWhile isEmojiChar) :: findallUnicodeF fuel (t.dropWhile isEmojiChar)
    else
      findallUnicodeF fuel t

theorem findallUnicodeF_congr :
    ∀ (fuel₁ fuel₂ : Nat) (s : List Char), s.length ≤ fuel₁ → s.length ≤ fuel₂ →
      findallUnicodeF fuel₁ s = findallUnicodeF fuel₂ s := by
  intro fuel₁
  induction fuel₁ with
  | zero =>
    intro fuel₂ s h1 _
    have : s = [] := List.length_eq_zero.mp (Nat.le_zero.mp h1)
    subst this
    cases fuel₂ <;> rfl
  | succ f ih =>
    intro fuel₂ s h1 h2
    cases s with
    | nil => cases fuel₂ <;> rfl
    | cons c t =>
      cases fuel₂ with
      | zero => simp at h2
      | succ f₂ =>
        simp only [findallUnicodeF]
        simp only [List.length_cons] at h1 h2
        have hdw := length_dropWhile_le isEmojiChar t
        split
        · rw [ih f₂ _ (by omega) (by omega)]
        · exact ih f₂ t (by omega) (by omega)

/-- `re.findall` of `UNICODE_EMOJI_PATTERN`: maximal emoji-range runs. -/
def findallUnicode (s : List Char) : List (List Char) :=
  findallUnicodeF s.length s

/-- `extract_emojis` (utils.py): custom-token matches first, then
Unicode-range matches, each in left-to-right order. -/
def extract_emojis (s : String) : List String :=
  (findallCustom s.data ++ findallUnicode s.data).map String.mk

/-! ### utils.py : format_duration -/

/-- `format_duration` (utils.py).  Python `//` and `%` are floor
division/modulus, i.e. `Int.fdiv`/`Int.fmod`; `if minutes:` is `minutes ≠ 0`. -/
def format_duration (seconds : Int) : String :=
  if seconds < 60 then toString seconds ++ "s"
  else if seconds < 3600 then toString (Int.fdiv seconds 60) ++ "m"
  else
    let hours := Int.fdiv seconds 3600
    let minutes := Int.fdiv (Int.fmod seconds 3600) 60
    if minutes ≠ 0 then toString hours ++ "h " ++ toString minutes ++ "m"
    else toString hours ++ "h"

/-! ### Decomposition of the custom-emoji matcher (for claim C2) -/

/-- The shape `<a?:name:digits>` described by the spec for custom tokens. -/
def isCustomShape (e : List Char) : Prop :=
  ∃ a w d, (a = [] ∨ a = ['a']) ∧ w ≠ [] ∧ (∀ c ∈ w, isWordChar c = true) ∧
    d ≠ [] ∧ (∀ c ∈ d, isDigitChar c = true) ∧
    e = '<' :: (a ++ ':' :: (w ++ ':' :: (d ++ ['>'])))

theorem matchAfterColon_decomp {pre : Nat} {r2 : List Char} {n : Nat}
    (h : matchAfterColon pre r2 = some n) :
    ∃ w d rest, w ≠ [] ∧ (∀ c ∈ w, isWordChar c = true) ∧
      d ≠ [] ∧ (∀ c ∈ d, isDigitChar c = true) ∧
      r2 = w ++ ':' :: (d ++ '>' :: rest) ∧
      n = pre + w.length + 1 + d.length + 1 := by
  unfold matchAfterColon at h
  dsimp only at h
  split at h
  · exact absurd h (by simp)
  next hw =>
    split at h
    next r4 heq =>
      split at h
      · exact absurd h (by simp)
      next hd =>
        split at h
        next rest heq2 =>
          simp only [Option.some.injEq] at h
          refine ⟨r2.takeWhile isWordChar, r4.takeWhile isDigitChar, rest, ?_, ?_, ?_, ?_, ?_, ?_⟩
          · simpa [List.isEmpty_iff] using hw
          · intro c hc; exact List.mem_takeWhile_imp hc
          · simpa [List.isEmpty_iff] using hd
          · intro c hc; exact List.mem_takeWhile_imp hc
          · have h4 : r4 = r4.takeWhile isDigitChar ++ '>' :: rest := by
              conv_lhs => rw [← List.takeWhile_append_dropWhile isDigitChar r4]
              rw [heq2]
            conv_lhs => rw [← List.takeWhile_append_dropWhile isWordChar r2]
            rw [heq, ← h4]
          · omega
        next => exact absurd h (by simp)
    next => exact absurd h (by simp)

theorem matchCustom_shape {s : List Char} {n : Nat}
    (h : matchCustom s = some n) : isCustomShape (s.take n) := by
  unfold matchCustom at h
  split at h
  next r2 =>
    obtain ⟨w, d, rest, hw, hwall, hd, hdall, hr2, hn⟩ := matchAfterColon_decomp h
    refine ⟨['a'], w, d, Or.inr rfl, hw, hwall, hd, hdall, ?_⟩
    subst hr2 hn
    have hsplit : ('<' :: 'a' :: ':' :: (w ++ ':' :: (d ++ '>' :: rest)))
        = ('<' :: 'a' :: ':' :: (w ++ ':' :: (d ++ ['>']))) ++ rest := by
      simp
    have hlen : 3 + w.length + 1 + d.length + 1
        = ('<' :: 'a' :: ':' :: (w ++ ':' :: (d ++ ['>']))).length := by
      simp only [List.length_cons, List.length_append]
      simp
      omega
    rw [hsplit, hlen, List.take_left]
    simp
  next r2 =>
    obtain ⟨w, d, rest, hw, hwall, hd, hdall, hr2, hn⟩ := matchAfterColon_decomp h
    refine ⟨[], w, d, Or.inl rfl, hw, hwall, hd, hdall, ?_⟩
    subst hr2 hn
    have hsplit : ('<' :: ':' :: (w ++ ':' :: (d ++ '>' :: rest)))
        = ('<' :: ':' :: (w ++ ':' :: (d ++ ['>']))) ++ rest := by
      simp
    have hlen : 2 + w.length + 1 + d.length + 1
        = ('<' :: ':' :: (w ++ ':' :: (d ++ ['>']))).length := by
      simp only [List.length_cons, List.length_append]
      simp
      omega
    rw [hsplit, hlen, List.take_left]
    simp
  next => exact absurd h (by simp)

theorem findallCustom_nil : findallCustom [] = [] := rfl

theorem findallCustom_cons_some {c : Char} {t : List Char} {n : Nat}
    (hm : matchCustom (c :: t) = some n) :
    findallCustom (c :: t) = (c :: t).take n :: findallCustom ((c :: t).drop n) := by
  have hn := matchCustom_pos hm
  unfold findallCustom
  simp only [List.length_cons, findallCustomF, hm]
  rw [findallCustomF_congr t.length ((c :: t).drop n).length _
    (by simp only [List.length_drop, List.length_cons]; omega) (le_refl _)]

theorem findallCustom_cons_none {c : Char} {t : List Char}
    (hm : matchCustom (c :: t) = none) :
    findallCustom (c :: t) = findallCustom t := by
  unfold findallCustom
  simp only [List.length_cons, findallCustomF, hm]

theorem findallCustomF_shape :
    ∀ (fuel : Nat) (s : List Char), ∀ e ∈ findallCustomF fuel s, isCustomShape e := by
  intro fuel
  induction fuel with
  | zero =>
    intro s e he
    cases s <;> simp [findallCustomF] at he
  | succ f ih =>
    intro s e he
    cases s with
    | nil => simp [findallCustomF] at he
    | cons c t =>
      rw [findallCustomF] at he
      cases hm : matchCustom (c :: t) with
      | some n =>
        rw [hm] at he
        rcases List.mem_cons.mp he with he | he
        · rw [he]; exact matchCustom_shape hm
        · exact ih _ e he
      | none =>
        rw [hm] at he
        exact ih t e he

theorem findallCustom_shape (s : List Char) : ∀ e ∈ findallCustom s, isCustomShape e :=
  findallCustomF_shape s.length s

theorem findallUnicode_nil : findallUnicode [] = [] := rfl

theorem findallUnicodeF_elems :
    ∀ (fuel : Nat) (s : List Char), ∀ e ∈ findallUnicodeF fuel s,
      e ≠ [] ∧ ∀ c ∈ e, isEmojiChar c = true := by
  intro fuel
  induction fuel with
  | zero =>
    intro s e he
    cases s <;> simp [findallUnicodeF] at he
  | succ f ih =>
    intro s e he
    cases s with
    | nil => simp [findallUnicodeF] at he
    | cons c t =>
      rw [findallUnicodeF] at he
      by_cases hc : isEmojiChar c
      · rw [if_pos hc] at he
        rcases List.mem_cons.mp he with he | he
        · subst he
          refine ⟨by simp, ?_⟩
          intro x hx
          rcases List.mem_cons.mp hx with hx | hx
          · subst hx; exact hc
          · exact List.mem_takeWhile_imp hx
        · exact ih _ e he
      · rw [if_neg hc] at he
        exact ih t e he

theorem findallUnicode_elems (s : List Char) :
    ∀ e ∈ findallUnicode s, e ≠ [] ∧ ∀ c ∈ e, isEmojiChar c = true :=
  findallUnicodeF_elems s.length s

theorem isCustomShape_head {e : List Char} (h : isCustomShape e) :
    ∃ t, e = '<' :: t := by
  obtain ⟨a, w, d, _, _, _, _, _, he⟩ := h
  exact ⟨_, he⟩

/-- C2 (amended): every element returned by `extract_emojis` is either a
single custom token of the shape `<a?:name:digits>` or a nonempty maximal
run of Unicode code points lying in the listed emoji block ranges; a run of
several adjacent emoji code points contributes ONE combined element, not one
element per code point. -/
theorem extract_emojis_element_shape (s : String) (e : String)
    (he : e ∈ extract_emojis s) :
    isCustomShape e.data ∨ (e.data ≠ [] ∧ ∀ c ∈ e.data, isEmojiChar c = true) := by
  unfold extract_emojis at he
  obtain ⟨l, hl, rfl⟩ := List.mem_map.mp he
  rcases List.mem_append.mp hl with h | h
  · exact Or.inl (findallCustom_shape _ _ h)
  · exact Or.inr (findallUnicode_elems _ _ h)

/-- C2 counterexample: on the input `"😀😀"` the claim as stated fails —
`extract_emojis` returns the single combined element `"😀😀"`, which is
neither a custom token of shape `<a?:name:digits>` nor a single Unicode code
point. -/
theorem extract_emojis_single_codepoint_false :
    ¬ (∀ e ∈ extract_emojis "😀😀",
        isCustomShape e.data ∨ (∃ c, e.data = [c] ∧ isEmojiChar c = true)) := by
  intro hclaim
  have hmem : ("😀😀" : String) ∈ extract_emojis "😀😀" := by decide
  rcases hclaim _ hmem with h | h
  · obtain ⟨t, ht⟩ := isCustomShape_head h
    have : ("😀😀" : String).data.head? = some '<' := by rw [ht]; rfl
    simp [String.data] at this
  · obtain ⟨c, hc, _⟩ := h
    have : ("😀😀" : String).data.length = 1 := by rw [hc]; rfl
    simp [String.data] at this

/-- C7: `extract_emojis` lists all custom-token matches first (left-to-right)
followed by all Unicode-range matches (left-to-right), regardless of how the
two kinds interleave in the input; empty input yields the empty sequence.
The concrete conjunct shows a custom token that occurs AFTER a Unicode emoji
in the text still precedes it in the result. -/
theorem extract_emojis_custom_first (s : String) :
    extract_emojis s
        = (findallCustom s.data).map String.mk ++ (findallUnicode s.data).map String.mk
      ∧ extract_emojis "" = []
      ∧ extract_emojis "😀<:x:1>" = ["<:x:1>", "😀"] := by
  refine ⟨?_, ?_, ?_⟩
  · unfold extract_emojis; exact List.map_append _ _ _
  · decide
  · decide

/-- C4: for every non-negative integer, `format_duration` follows the spec's
case table (`s` below 60, truncated minutes below 3600, hours with optional
minute remainder above), and the seven example values of the spec hold. -/
theorem format_duration_spec (n : Int) (hn : 0 ≤ n) :
    (n < 60 → format_duration n = toString n ++ "s")
    ∧ (60 ≤ n → n < 3600 → format_duration n = toString (Int.fdiv n 60) ++ "m")
    ∧ (3600 ≤ n → Int.fdiv (Int.fmod n 3600) 60 = 0 →
        format_duration n = toString (Int.fdiv n 3600) ++ "h")
    ∧ (3600 ≤ n → Int.fdiv (Int.fmod n 3600) 60 ≠ 0 →
        format_duration n = toString (Int.fdiv n 3600) ++ "h "
          ++ toString (Int.fdiv (Int.fmod n 3600) 60) ++ "m")
    ∧ format_duration 0 = "0s" ∧ format_duration 59 = "59s"
    ∧ format_duration 60 = "1m" ∧ format_duration 3599 = "59m"
    ∧ format_duration 3600 = "1h" ∧ format_duration 3660 = "1h 1m"
    ∧ format_duration 90000 = "25h" := by
  refine ⟨?_, ?_, ?_, ?_, by decide, by decide, by decide, by decide, by decide, by decide, by decide⟩
  · intro h1
    unfold format_duration
    rw [if_pos h1]
  · intro h1 h2
    unfold format_duration
    rw [if_neg (by omega), if_pos h2]
  · intro h1 h2
    unfold format_duration
    rw [if_neg (by omega), if_neg (by omega)]
    dsimp only
    rw [if_neg (by simpa using h2)]
  · intro h1 h2
    unfold format_duration
    rw [if_neg (by omega), if_neg (by omega)]
    dsimp only
    rw [if_pos (by simpa using h2)]

/-- Witness for C4 at `n = 3660`: both hypotheses of the hour-and-minutes
branch are discharged concretely. -/
theorem format_duration_spec_witness : format_duration 3660 = "1h 1m" :=
  (format_duration_spec 3660 (by decide)).2.2.2.1 (by decide) (by decide)

/-! ### meme.py : text encoding -/

/-- One pass of Python `str.replace(a, to)` for a single-character pattern:
every occurrence of `a` becomes `to`. -/
def replOne (a : Char) (rep : List Char) : List Char → List Char
  | [] => []
  | c :: t => (if c = a then rep else [c]) ++ replOne a rep t

/-- `encode_meme_text` (meme.py): empty text maps to the placeholder `"_"`;
otherwise the eight `str.replace` passes run in source order, innermost
first: `_`→`__`, `-`→`--`, space→`_`, `?`→`~q`, `#`→`~h`, `/`→`~s`,
`"`→`''`, newline→`~n`. -/
def encode_meme_text (s : String) : String :=
  if s = "" then "_"
  else String.mk
    (replOne '\n' ['~', 'n']
      (replOne '"' ['\'', '\'']
        (replOne '/' ['~', 's']
          (replOne '#' ['~', 'h']
            (replOne '?' ['~', 'q']
              (replOne ' ' ['_']
                (replOne '-' ['-', '-']
                  (replOne '_' ['_', '_'] s.data))))))))

/-- `build_meme_url` (meme.py). -/
def build_meme_url (template_id top bottom : String) : String :=
  "https://api.memegen.link/images/" ++ template_id ++ "/" ++ encode_meme_text top
    ++ "/" ++ (if bottom = "" then "_" else encode_meme_text bottom) ++ ".png"

/-! ### meme.py : remote fetches -/

/-- An HTTP response as the calling code observes it: status code plus the
already-decoded JSON body. -/
structure HttpResponse (α : Type) where
  status : Nat
  body : α

/-- A status outside the 2xx range ("non-success"). -/
def nonSuccess (status : Nat) : Prop := ¬ (200 ≤ status ∧ status ≤ 299)

instance nonSuccess_decidable (status : Nat) : Decidable (nonSuccess status) :=
  inferInstanceAs (Decidable (¬ (200 ≤ status ∧ status ≤ 299)))

/-- `get_meme_templates` (meme.py), with the module-level cache passed
explicitly: returns the served template list together with the cache value
after the call.  A populated cache short-circuits unless `force_refresh`;
otherwise a non-200 response yields `[]` and leaves the cache untouched,
and a 200 response is served and cached. -/
def get_meme_templates {α : Type} (cache : Option (List α)) (force_refresh : Bool)
    (resp : HttpResponse (List α)) : List α × Option (List α) :=
  match cache, force_refresh with
  | some c, false => (c, some c)
  | _, _ =>
    if resp.status ≠ 200 then ([], cache)
    else (resp.body, some resp.body)

/-- `get_random_meme` (meme.py): `None` on a non-200 response, else the
decoded body. -/
def get_random_meme {α : Type} (resp : HttpResponse α) : Option α :=
  if resp.status ≠ 200 then none else some resp.body

/-- C5: `encode_meme_text` maps the empty string to the placeholder `"_"`,
and otherwise applies exactly the eight single-character substitutions in
the source order (`_`→`__` first, then `-`→`--`, space→`_`, `?`→`~q`,
`#`→`~h`, `/`→`~s`, `"`→`''`, newline→`~n`), so that underscores introduced
by the later space substitution are not re-escaped (witnessed by
`" " ↦ "_"`, not `"__"`); the spec's examples hold. -/
theorem encode_meme_text_spec (s : String) :
    encode_meme_text "" = "_"
    ∧ (s ≠ "" → encode_meme_text s =
        String.mk (replOne '\n' ['~', 'n'] (replOne '"' ['\'', '\'']
          (replOne '/' ['~', 's'] (replOne '#' ['~', 'h'] (replOne '?' ['~', 'q']
            (replOne ' ' ['_'] (replOne '-' ['-', '-']
              (replOne '_' ['_', '_'] s.data)))))))))
    ∧ encode_meme_text " " = "_"
    ∧ encode_meme_text "what?" = "what~q"
    ∧ encode_meme_text "say \"hi\"" = "say_''hi''" := by
  refine ⟨by decide, ?_, by decide, by decide, by decide⟩
  intro hs
  unfold encode_meme_text
  rw [if_neg hs]

/-- Witness for C5 on the nonempty input `"a b"`. -/
theorem encode_meme_text_spec_witness :
    encode_meme_text "a b" =
      String.mk (replOne '\n' ['~', 'n'] (replOne '"' ['\'', '\'']
        (replOne '/' ['~', 's'] (replOne '#' ['~', 'h'] (replOne '?' ['~', 'q']
          (replOne ' ' ['_'] (replOne '-' ['-', '-']
            (replOne '_' ['_', '_'] ("a b" : String).data)))))))) :=
  (encode_meme_text_spec "a b").2.1 (by decide)

/-- C10: `encode_meme_text` is not injective — a single space and the empty
string both encode to `"_"`, so a whitespace caption is indistinguishable
from the explicit "no text" placeholder. -/
theorem encode_meme_text_not_injective :
    encode_meme_text " " = encode_meme_text ""
    ∧ encode_meme_text " " = "_"
    ∧ (" " : String) ≠ "" := by
  refine ⟨by decide, by decide, by decide⟩

/-- C8: a non-success HTTP status makes `get_meme_templates` return the
empty list (on any call that actually performs the fetch, i.e. the cache is
empty or a refresh is forced) and makes `get_random_meme` return `none`;
both functions are total, so no exception reaches the caller. -/
theorem meme_nonsuccess_swallowed {α : Type} (resp : HttpResponse (List α))
    (resp2 : HttpResponse α) (cache : Option (List α)) (force_refresh : Bool)
    (h : nonSuccess resp.status) (h2 : nonSuccess resp2.status) :
    ((cache = none ∨ force_refresh = true) →
      (get_meme_templates cache force_refresh resp).1 = [])
    ∧ get_random_meme resp2 = none := by
  have hne : resp.status ≠ 200 := by
    intro he
    exact h ⟨by omega, by omega⟩
  have hne2 : resp2.status ≠ 200 := by
    intro he
    exact h2 ⟨by omega, by omega⟩
  constructor
  · rintro (rfl | hf)
    · unfold get_meme_templates
      cases force_refresh <;> simp [hne]
    · subst hf
      unfold get_meme_templates
      cases cache <;> simp [hne]
  · unfold get_random_meme
    rw [if_pos hne2]

/-- Witness for C8: status 500 with empty cache, status 404 for the random
meme. -/
theorem meme_nonsuccess_swallowed_witness :
    (get_meme_templates (none : Option (List Nat)) false ⟨500, [1]⟩).1 = []
    ∧ get_random_meme (⟨404, 7⟩ : HttpResponse Nat) = none :=
  have h := meme_nonsuccess_swallowed (α := Nat) ⟨500, [1]⟩ ⟨404, 7⟩ none false
    (by decide) (by decide)
  ⟨h.1 (Or.inl rfl), h.2⟩

/-- C9: a failed fetch (status ≠ 200) leaves the template cache exactly as
it was; a populated cache keeps being served on later calls, and after a
failure with an empty cache the next call fetches again and serves (and
caches) a successful body rather than the stale empty result. -/
theorem get_meme_templates_cache_preserved {α : Type} (cache : Option (List α))
    (force_refresh force₂ : Bool) (resp : HttpResponse (List α))
    (hfail : resp.status ≠ 200) :
    ((cache = none ∨ force_refresh = true) →
      (get_meme_templates cache force_refresh resp).1 = []
      ∧ (get_meme_templates cache force_refresh resp).2 = cache)
    ∧ (∀ c, (get_meme_templates (some c) false resp).1 = c)
    ∧ (∀ resp₂ : HttpResponse (List α), resp₂.status = 200 →
        (get_meme_templates
            ((get_meme_templates none force_refresh resp).2) force₂ resp₂).1
          = resp₂.body) := by
  refine ⟨?_, ?_, ?_⟩
  · rintro (rfl | hf)
    · unfold get_meme_templates
      cases force_refresh <;> simp [hfail]
    · subst hf
      unfold get_meme_templates
      cases cache <;> simp [hfail]
  · intro c
    rfl
  · intro resp₂ h200
    have hcache : (get_meme_templates (none : Option (List α)) force_refresh resp).2 = none := by
      unfold get_meme_templates
      cases force_refresh <;> simp [hfail]
    rw [hcache]
    unfold get_meme_templates
    cases force₂ <;> simp [h200]

/-- Witness for C9: a 500 failure with empty cache followed by a 200 fetch. -/
theorem get_meme_templates_cache_preserved_witness :
    (get_meme_templates (none : Option (List Nat)) false ⟨500, [3]⟩).2 = none
    ∧ (get_meme_templates
        ((get_meme_templates (none : Option (List Nat)) false ⟨500, [3]⟩).2)
        false ⟨200, [4]⟩).1 = [4] :=
  have h := get_meme_templates_cache_preserved (α := Nat) none false false ⟨500, [3]⟩
    (by decide)
  ⟨(h.1 (Or.inl rfl)).2, h.2.2 ⟨200, [4]⟩ rfl⟩

/-- Witness for C2 (amended) on the element `"😀"` of
`extract_emojis "a😀b"`. -/
theorem extract_emojis_element_shape_witness :
    isCustomShape ("😀" : String).data
    ∨ (("😀" : String).data ≠ [] ∧ ∀ c ∈ ("😀" : String).data, isEmojiChar c = true) :=
  extract_emojis_element_shape "a😀b" "😀" (by decide)

/-! ### db.py : documents and sorting infrastructure -/

/-- Descending-by-value order used to model `$sort: {count: -1}` on grouped
`(key, value)` rows. -/
def byCountDesc {β : Type} [LinearOrder β] (a b : String × β) : Prop := b.2 ≤ a.2

instance {β : Type} [LinearOrder β] : DecidableRel (byCountDesc (β := β)) :=
  fun a b => inferInstanceAs (Decidable (b.2 ≤ a.2))

instance {β : Type} [LinearOrder β] : IsTotal (String × β) byCountDesc :=
  ⟨fun a b => le_total b.2 a.2⟩

instance {β : Type} [LinearOrder β] : IsTrans (String × β) byCountDesc :=
  ⟨fun _ _ _ hab hbc => le_trans hbc hab⟩

/-- Model of `$sort` descending by the row value (ties in an unspecified
order; this model uses insertion sort). -/
def sortByCountDesc {β : Type} [LinearOrder β] (l : List (String × β)) : List (String × β) :=
  List.insertionSort byCountDesc l

/-- A document of the `messages` collection. -/
structure Message where
  user_id : String
  guild_id : String
  channel_id : String
  message_id : String
  emojis : List String
  created_at : Int
deriving DecidableEq

/-- The `{user_id: .., guild_id: ..}` match clause. -/
def msgMatches (u g : String) (m : Message) : Bool :=
  m.user_id == u && m.guild_id == g

/-- Result shape of `get_message_stats`. -/
structure MessageStats where
  message_count : Nat
  total_emojis : Nat
  top_emoji : Option String
  top_emoji_count : Nat
deriving DecidableEq

/-- `get_message_stats` (db.py): `message_count` counts the user's messages
in the guild; the emoji pipeline matches messages with a nonempty `emojis`
array (`emojis.0 $exists`), `$unwind`s the arrays, groups per distinct emoji
with its count, sorts by count descending, and `to_list(100)` keeps at most
100 groups; `total_emojis` sums the kept counts and the top group gives
`top_emoji`/`top_emoji_count`. -/
def get_message_stats (msgs : List Message) (u g : String) : MessageStats :=
  let message_count := (msgs.filter (msgMatches u g)).length
  let unwound :=
    ((msgs.filter (fun m => msgMatches u g m && !m.emojis.isEmpty)).map Message.emojis).flatten
  let emoji_results :=
    (sortByCountDesc (unwound.dedup.map (fun k => (k, unwound.count k)))).take 100
  { message_count := message_count,
    total_emojis := (emoji_results.map (fun p => p.2)).sum,
    top_emoji := (emoji_results.head?).map (fun p => p.1),
    top_emoji_count := ((emoji_results.head?).map (fun p => p.2)).getD 0 }

/-- All emoji occurrences across a user's messages in a guild, flattened in
order (the quantity the spec says `total_emojis` counts). -/
def flattenedEmojis (msgs : List Message) (u g : String) : List String :=
  ((msgs.filter (msgMatches u g)).map Message.emojis).flatten

theorem unwound_eq_flattenedEmojis (msgs : List Message) (u g : String) :
    ((msgs.filter (fun m => msgMatches u g m && !m.emojis.isEmpty)).map Message.emojis).flatten
      = flattenedEmojis msgs u g := by
  unfold flattenedEmojis
  induction msgs with
  | nil => rfl
  | cons m t ih =>
    by_cases hm : msgMatches u g m
    · by_cases he : m.emojis.isEmpty
      · have hnil : m.emojis = [] := List.isEmpty_iff.mp he
        simp [List.filter_cons, hm, he, hnil, ih]
      · simp [List.filter_cons, hm, he, ih]
    · simp [List.filter_cons, hm, ih]

/-- The two-message example from the spec. -/
def exampleMessages : List Message :=
  [⟨"u1", "g1", "c1", "m1", ["😀", "😀", "👍"], 0⟩,
   ⟨"u1", "g1", "c1", "m2", ["😀"], 0⟩]

/-- C1 (amended): `message_count` counts the user's messages in the guild,
and `total_emojis` equals the total number of flattened emoji occurrences
whenever the user has at most 100 distinct emojis in that guild (the
aggregation materialises at most 100 groups via `to_list(100)`); the spec's
concrete example `{message_count: 2, total_emojis: 4, top_emoji: 😀,
top_emoji_count: 3}` holds. -/
theorem get_message_stats_spec (msgs : List Message) (u g : String) :
    (get_message_stats msgs u g).message_count = (msgs.filter (msgMatches u g)).length
    ∧ ((flattenedEmojis msgs u g).dedup.length ≤ 100 →
        (get_message_stats msgs u g).total_emojis = (flattenedEmojis msgs u g).length)
    ∧ get_message_stats exampleMessages "u1" "g1" = ⟨2, 4, some "😀", 3⟩ := by
  refine ⟨rfl, ?_, by decide⟩
  intro hle
  unfold get_message_stats
  dsimp only
  rw [unwound_eq_flattenedEmojis]
  set unw := flattenedEmojis msgs u g with hunw
  set groups := unw.dedup.map (fun k => (k, unw.count k)) with hgroups
  have hperm : List.Perm (sortByCountDesc groups) groups := List.perm_insertionSort _ _
  have hlen : (sortByCountDesc groups).length ≤ 100 := by
    rw [hperm.length_eq]
    simpa [hgroups] using hle
  rw [List.take_of_length_le hlen]
  have hsum : ((sortByCountDesc groups).map (fun p => p.2)).sum
      = (groups.map (fun p => p.2)).sum :=
    (hperm.map (fun p => p.2)).sum_eq
  rw [hsum, hgroups, List.map_map]
  simpa using List.sum_map_count_dedup_eq_length unw

/-- Witness for C1 at the spec's two-message example (2 distinct emojis,
well under the 100-group cap). -/
theorem get_message_stats_spec_witness :
    (get_message_stats exampleMessages "u1" "g1").total_emojis
      = (flattenedEmojis exampleMessages "u1" "g1").length :=
  (get_message_stats_spec exampleMessages "u1" "g1").2.1 (by decide)

/-- A single message whose emoji array holds 101 distinct emoji strings. -/
def manyEmojiMessage : Message :=
  ⟨"u1", "g1", "c1", "m1", (List.range 101).map (fun n => String.mk [Char.ofNat (65 + n)]), 0⟩

set_option maxRecDepth 4000 in
/-- C1 counterexample: with 101 distinct emojis the aggregation keeps only
100 groups, so `total_emojis` is 100 while the flattened occurrence count is
101 — the claim's "sum over ALL distinct emoji counts" fails. -/
theorem get_message_stats_total_capped :
    (get_message_stats [manyEmojiMessage] "u1" "g1").total_emojis = 100
    ∧ (flattenedEmojis [manyEmojiMessage] "u1" "g1").length = 101
    ∧ (get_message_stats [manyEmojiMessage] "u1" "g1").total_emojis
        ≠ (flattenedEmojis [manyEmojiMessage] "u1" "g1").length := by
  refine ⟨by decide, by decide, by decide⟩

/-! ### db.py : voice sessions, reactions, users -/

/-- A Python `datetime` as the code manipulates it: wall-clock fields in
microseconds plus an optional UTC offset in microseconds (`none` = naive).
Mongo stores/compares the UTC instant; a naive value is stored as-is, which
is exactly "treat missing timezone as UTC". -/
structure PyDt where
  wall : Int
  tz : Option Int
deriving DecidableEq

/-- The UTC instant a stored datetime denotes (naive read as UTC). -/
def PyDt.instant (d : PyDt) : Int := d.wall - d.tz.getD 0

/-- A document of the `voice_sessions` collection (`sid` models the `_id`). -/
structure VoiceSession where
  sid : Nat
  user_id : String
  guild_id : String
  channel_id : String
  channel_name : String
  joined_at : PyDt
  left_at : Option PyDt
  duration_seconds : Option Int
deriving DecidableEq

/-- A document of the `reactions` collection. -/
structure Reaction where
  user_id : String
  guild_id : String
  channel_id : String
  message_id : String
  emoji : String
  action : String
  created_at : Int
deriving DecidableEq

/-- A document of the `users` collection. -/
structure UserDoc where
  uid : String
  username : String
deriving DecidableEq

/-- The `$lookup` on `users` followed by `$arrayElemAt 0` and the
`"Unknown"` fallback. -/
def lookupUsername (users : List UserDoc) (uid : String) : String :=
  match users.find? (fun d => d.uid == uid) with
  | some d => d.username
  | none => "Unknown"

/-- The `{$gte: lo, $lte: hi}` clauses that `get_guild_leaderboards` adds
for each supplied bound: both ends inclusive, a missing end unconstrained. -/
def dateOk (lo hi : Option Int) (t : Int) : Bool :=
  (match lo with | some l => decide (l ≤ t) | none => true)
  && (match hi with | some h => decide (t ≤ h) | none => true)

/-- Voice `$match`: in-guild, completed (`duration_seconds ≠ null`), and —
only when a date filter was built — `left_at` inside the range (a null
`left_at` never matches a date comparison, per BSON type bracketing). -/
def voiceMatch (g : String) (lo hi : Option Int) (s : VoiceSession) : Bool :=
  s.guild_id == g && !s.duration_seconds.isNone &&
  (if lo.isNone && hi.isNone then true
   else match s.left_at with
        | none => false
        | some d => dateOk lo hi d.instant)

/-- Messages `$match` for the message-count leaderboard. -/
def msgMatch (g : String) (lo hi : Option Int) (m : Message) : Bool :=
  m.guild_id == g && dateOk lo hi m.created_at

/-- Messages `$match` for the emoji leaderboard (`emojis.0 $exists`). -/
def emojiMsgMatch (g : String) (lo hi : Option Int) (m : Message) : Bool :=
  m.guild_id == g && !m.emojis.isEmpty && dateOk lo hi m.created_at

/-- Reactions `$match` (`action = "add"`). -/
def reactMatch (g : String) (lo hi : Option Int) (r : Reaction) : Bool :=
  r.guild_id == g && r.action == "add" && dateOk lo hi r.created_at

/-- `$group`-by-key summing the row values, `$sort` by total descending,
`$limit 5`, then the username `$lookup`/projection. -/
def aggregateTop5 (pairs : List (String × Int)) (users : List UserDoc) :
    List (String × String × Int) :=
  ((sortByCountDesc ((pairs.map Prod.fst).dedup.map
      (fun k => (k, ((pairs.filter (fun p => p.1 == k)).map (fun p => p.2)).sum)))).take 5).map
    (fun p => (p.1, lookupUsername users p.1, p.2))

/-- Result shape of `get_guild_leaderboards`. -/
structure Leaderboards where
  voice_time : List (String × String × Int)
  messages : List (String × String × Int)
  emojis : List (String × String × Int)
  reactions : List (String × String × Int)
deriving DecidableEq

/-- `get_guild_leaderboards` (db.py): the four pipelines, each `$match` →
(`$unwind` for emojis) → `$group` by user → `$sort` desc → `$limit 5` →
username lookup. -/
def get_guild_leaderboards (voice : List VoiceSession) (msgs : List Message)
    (reacts : List Reaction) (users : List UserDoc) (g : String)
    (lo hi : Option Int) : Leaderboards :=
  { voice_time := aggregateTop5 ((voice.filter (voiceMatch g lo hi)).map
      (fun s => (s.user_id, s.duration_seconds.getD 0))) users,
    messages := aggregateTop5 ((msgs.filter (msgMatch g lo hi)).map
      (fun m => (m.user_id, (1 : Int)))) users,
    emojis := aggregateTop5 (((msgs.filter (emojiMsgMatch g lo hi)).map
      (fun m => m.emojis.map (fun _ => (m.user_id, (1 : Int))))).flatten) users,
    reactions := aggregateTop5 ((reacts.filter (reactMatch g lo hi)).map
      (fun r => (r.user_id, (1 : Int)))) users }

theorem aggregateTop5_spec (pairs : List (String × Int)) (users : List UserDoc) :
    (aggregateTop5 pairs users).length ≤ 5
    ∧ List.Pairwise (fun a b : String × String × Int => b.2.2 ≤ a.2.2)
        (aggregateTop5 pairs users)
    ∧ ∀ e ∈ aggregateTop5 pairs users,
        e.2.1 = lookupUsername users e.1
        ∧ e.1 ∈ pairs.map Prod.fst
        ∧ e.2.2 = ((pairs.filter (fun p => p.1 == e.1)).map (fun p => p.2)).sum := by
  refine ⟨?_, ?_, ?_⟩
  · simp only [aggregateTop5, List.length_map, List.length_take]
    omega
  · unfold aggregateTop5
    rw [List.pairwise_map]
    refine List.Pairwise.sublist (List.take_sublist _ _) ?_
    have hs := List.sorted_insertionSort byCountDesc ((pairs.map Prod.fst).dedup.map
      (fun k => (k, ((pairs.filter (fun p => p.1 == k)).map (fun p => p.2)).sum)))
    exact hs.imp (fun {a b} h => h)
  · intro e he
    unfold aggregateTop5 at he
    obtain ⟨p, hp, rfl⟩ := List.mem_map.mp he
    have hp' : p ∈ sortByCountDesc ((pairs.map Prod.fst).dedup.map
        (fun k => (k, ((pairs.filter (fun q => q.1 == k)).map (fun q => q.2)).sum))) :=
      List.take_subset _ _ hp
    have hp'' : p ∈ (pairs.map Prod.fst).dedup.map
        (fun k => (k, ((pairs.filter (fun q => q.1 == k)).map (fun q => q.2)).sum)) :=
      (List.perm_insertionSort byCountDesc _).subset hp'
    obtain ⟨k, hk, rfl⟩ := List.mem_map.mp hp''
    exact ⟨rfl, List.mem_dedup.mp hk, rfl⟩

theorem pairs_filter_sum {ρ : Type} (records : List ρ) (uid : ρ → String)
    (val : ρ → Int) (u : String) :
    (((records.map (fun r => (uid r, val r))).filter (fun p => p.1 == u)).map
        (fun p => p.2)).sum
      = ((records.filter (fun r => uid r == u)).map val).sum := by
  induction records with
  | nil => rfl
  | cons r t ih =>
    by_cases h : (uid r == u) = true
    · simp [List.filter_cons, h, ih]
    · simp [List.filter_cons, h, ih]

theorem sum_map_ones {ρ : Type} (l : List ρ) :
    (l.map (fun _ => (1 : Int))).sum = l.length := by
  induction l with
  | nil => rfl
  | cons r t ih =>
    simp only [List.map_cons, List.sum_cons, ih, List.length_cons]
    push_cast
    ring

theorem constPairs_sum (l : List String) (k u : String) :
    (((l.map (fun _ => (k, (1 : Int)))).filter (fun p => p.1 == u)).map
        (fun p => p.2)).sum
      = if k == u then (l.length : Int) else 0 := by
  induction l with
  | nil => simp
  | cons a t ih =>
    by_cases h : (k == u) = true
    · simp only [List.map_cons, List.filter_cons, h, if_true, List.sum_cons, ih,
        List.length_cons]
      push_cast
      ring
    · simp [List.filter_cons, h, ih]

theorem flatPairs_filter_sum (records : List Message) (u : String) :
    ((((records.map (fun m => m.emojis.map (fun _ => (m.user_id, (1 : Int))))).flatten).filter
        (fun p => p.1 == u)).map (fun p => p.2)).sum
      = ((records.filter (fun m => m.user_id == u)).map
          (fun m => (m.emojis.length : Int))).sum := by
  induction records with
  | nil => rfl
  | cons m t ih =>
    simp only [List.map_cons, List.flatten_cons, List.filter_append, List.map_append,
      List.sum_append, ih]
    by_cases h : (m.user_id == u) = true
    · rw [constPairs_sum m.emojis m.user_id u, if_pos h]
      simp [List.filter_cons, h]
    · rw [constPairs_sum m.emojis m.user_id u, if_neg h]
      simp [List.filter_cons, h]

theorem aggregate_mapped_spec {ρ : Type} (records : List ρ) (M : ρ → Bool)
    (uid : ρ → String) (val : ρ → Int) (users : List UserDoc) :
    (aggregateTop5 ((records.filter M).map (fun r => (uid r, val r))) users).length ≤ 5
    ∧ List.Pairwise (fun a b : String × String × Int => b.2.2 ≤ a.2.2)
        (aggregateTop5 ((records.filter M).map (fun r => (uid r, val r))) users)
    ∧ ∀ e ∈ aggregateTop5 ((records.filter M).map (fun r => (uid r, val r))) users,
        e.2.1 = lookupUsername users e.1
        ∧ (∃ r ∈ records, M r = true ∧ uid r = e.1)
        ∧ e.2.2 = (((records.filter M).filter (fun r => uid r == e.1)).map val).sum := by
  obtain ⟨h1, h2, h3⟩ :=
    aggregateTop5_spec ((records.filter M).map (fun r => (uid r, val r))) users
  refine ⟨h1, h2, ?_⟩
  intro e he
  obtain ⟨hname, hmem, hval⟩ := h3 e he
  refine ⟨hname, ?_, ?_⟩
  · rw [List.map_map] at hmem
    obtain ⟨r, hr, hre⟩ := List.mem_map.mp hmem
    obtain ⟨hrec, hM⟩ := List.mem_filter.mp hr
    exact ⟨r, hrec, hM, hre⟩
  · exact hval.trans (pairs_filter_sum (records.filter M) uid val e.1)

theorem aggregate_flat_spec (records : List Message) (M : Message → Bool)
    (users : List UserDoc) :
    (aggregateTop5 (((records.filter M).map
        (fun m => m.emojis.map (fun _ => (m.user_id, (1 : Int))))).flatten) users).length ≤ 5
    ∧ List.Pairwise (fun a b : String × String × Int => b.2.2 ≤ a.2.2)
        (aggregateTop5 (((records.filter M).map
          (fun m => m.emojis.map (fun _ => (m.user_id, (1 : Int))))).flatten) users)
    ∧ ∀ e ∈ aggregateTop5 (((records.filter M).map
          (fun m => m.emojis.map (fun _ => (m.user_id, (1 : Int))))).flatten) users,
        e.2.1 = lookupUsername users e.1
        ∧ (∃ m ∈ records, M m = true ∧ m.user_id = e.1)
        ∧ e.2.2 = (((records.filter M).filter (fun m => m.user_id == e.1)).map
            (fun m => (m.emojis.length : Int))).sum := by
  obtain ⟨h1, h2, h3⟩ := aggregateTop5_spec (((records.filter M).map
    (fun m => m.emojis.map (fun _ => (m.user_id, (1 : Int))))).flatten) users
  refine ⟨h1, h2, ?_⟩
  intro e he
  obtain ⟨hname, hmem, hval⟩ := h3 e he
  refine ⟨hname, ?_, ?_⟩
  · obtain ⟨p, hp, hpe⟩ := List.mem_map.mp hmem
    obtain ⟨inner, hinner, hpinner⟩ := List.mem_flatten.mp hp
    obtain ⟨m, hm, hminner⟩ := List.mem_map.mp hinner
    obtain ⟨hrec, hM⟩ := List.mem_filter.mp hm
    subst hminner
    obtain ⟨_, _, hpdef⟩ := List.mem_map.mp hpinner
    refine ⟨m, hrec, hM, ?_⟩
    rw [← hpe, ← hpdef]
  · exact hval.trans (flatPairs_filter_sum (records.filter M) e.1)

/-- C3 (amended): every one of the four leaderboards has at most 5 entries,
is sorted in DESCENDING (non-strict: equal metrics may tie) order by its
metric, resolves usernames through the `users` lookup with the `"Unknown"`
fallback, and contains only users with matching activity; each entry's
metric aggregates exactly the records of the requested guild that pass the
date filter — inclusive on each supplied end, unbounded on a missing end —
with voice filtered by `left_at` and the other three by `created_at`. -/
theorem get_guild_leaderboards_spec (voice : List VoiceSession) (msgs : List Message)
    (reacts : List Reaction) (users : List UserDoc) (g : String) (lo hi : Option Int) :
    ((get_guild_leaderboards voice msgs reacts users g lo hi).voice_time.length ≤ 5
      ∧ List.Pairwise (fun a b : String × String × Int => b.2.2 ≤ a.2.2)
          (get_guild_leaderboards voice msgs reacts users g lo hi).voice_time
      ∧ ∀ e ∈ (get_guild_leaderboards voice msgs reacts users g lo hi).voice_time,
          e.2.1 = lookupUsername users e.1
          ∧ (∃ s ∈ voice, voiceMatch g lo hi s = true ∧ s.user_id = e.1)
          ∧ e.2.2 = (((voice.filter (voiceMatch g lo hi)).filter
              (fun s => s.user_id == e.1)).map (fun s => s.duration_seconds.getD 0)).sum)
    ∧ ((get_guild_leaderboards voice msgs reacts users g lo hi).messages.length ≤ 5
      ∧ List.Pairwise (fun a b : String × String × Int => b.2.2 ≤ a.2.2)
          (get_guild_leaderboards voice msgs reacts users g lo hi).messages
      ∧ ∀ e ∈ (get_guild_leaderboards voice msgs reacts users g lo hi).messages,
          e.2.1 = lookupUsername users e.1
          ∧ (∃ m ∈ msgs, msgMatch g lo hi m = true ∧ m.user_id = e.1)
          ∧ e.2.2 = (((msgs.filter (msgMatch g lo hi)).filter
              (fun m => m.user_id == e.1)).length : Int))
    ∧ ((get_guild_leaderboards voice msgs reacts users g lo hi).emojis.length ≤ 5
      ∧ List.Pairwise (fun a b : String × String × Int => b.2.2 ≤ a.2.2)
          (get_guild_leaderboards voice msgs reacts users g lo hi).emojis
      ∧ ∀ e ∈ (get_guild_leaderboards voice msgs reacts users g lo hi).emojis,
          e.2.1 = lookupUsername users e.1
          ∧ (∃ m ∈ msgs, emojiMsgMatch g lo hi m = true ∧ m.user_id = e.1)
          ∧ e.2.2 = (((msgs.filter (emojiMsgMatch g lo hi)).filter
              (fun m => m.user_id == e.1)).map (fun m => (m.emojis.length : Int))).sum)
    ∧ ((get_guild_leaderboards voice msgs reacts users g lo hi).reactions.length ≤ 5
      ∧ List.Pairwise (fun a b : String × String × Int => b.2.2 ≤ a.2.2)
          (get_guild_leaderboards voice msgs reacts users g lo hi).reactions
      ∧ ∀ e ∈ (get_guild_leaderboards voice msgs reacts users g lo hi).reactions,
          e.2.1 = lookupUsername users e.1
          ∧ (∃ r ∈ reacts, reactMatch g lo hi r = true ∧ r.user_id = e.1)
          ∧ e.2.2 = (((reacts.filter (reactMatch g lo hi)).filter
              (fun r => r.user_id == e.1)).length : Int)) := by
  refine ⟨?_, ?_, ?_, ?_⟩
  · exact aggregate_mapped_spec voice (voiceMatch g lo hi) (fun s => s.user_id)
      (fun s => s.duration_seconds.getD 0) users
  · obtain ⟨h1, h2, h3⟩ := aggregate_mapped_spec msgs (msgMatch g lo hi)
      (fun m => m.user_id) (fun _ => (1 : Int)) users
    refine ⟨h1, h2, ?_⟩
    intro e he
    obtain ⟨hname, hex, hval⟩ := h3 e he
    exact ⟨hname, hex, hval.trans (sum_map_ones _)⟩
  · exact aggregate_flat_spec msgs (emojiMsgMatch g lo hi) users
  · obtain ⟨h1, h2, h3⟩ := aggregate_mapped_spec reacts (reactMatch g lo hi)
      (fun r => r.user_id) (fun _ => (1 : Int)) users
    refine ⟨h1, h2, ?_⟩
    intro e he
    obtain ⟨hname, hex, hval⟩ := h3 e he
    exact ⟨hname, hex, hval.trans (sum_map_ones _)⟩

/-- Two one-message users in the same guild: a tie. -/
def tieMessages : List Message :=
  [⟨"u1", "g1", "c", "m1", [], 0⟩, ⟨"u2", "g1", "c", "m2", [], 0⟩]

/-- C3 counterexample: with two tied users the messages leaderboard is
`[(u1, 1), (u2, 1)]`, which is NOT strictly descending by metric — `$sort`
descending admits equal adjacent values. -/
theorem get_guild_leaderboards_not_strictly_descending :
    (get_guild_leaderboards [] tieMessages [] [] "g1" none none).messages
        = [("u1", "Unknown", 1), ("u2", "Unknown", 1)]
    ∧ ¬ List.Pairwise (fun a b : String × String × Int => b.2.2 < a.2.2)
        (get_guild_leaderboards [] tieMessages [] [] "g1" none none).messages := by
  have hmsg : (get_guild_leaderboards [] tieMessages [] [] "g1" none none).messages
      = [("u1", "Unknown", 1), ("u2", "Unknown", 1)] := by decide
  refine ⟨hmsg, ?_⟩
  rw [hmsg]
  intro h
  have h01 := (List.pairwise_cons.mp h).1 ("u2", "Unknown", 1) (by simp)
  exact absurd h01 (lt_irrefl _)

/-- Witness for C3: a one-message guild with a two-sided date range; the
single leaderboard entry satisfies the per-entry characterisation. -/
theorem get_guild_leaderboards_spec_witness :
    ("Unknown" : String) = lookupUsername [] "u1"
    ∧ (∃ m ∈ ([⟨"u1", "g1", "c", "m1", [], 5⟩] : List Message),
        msgMatch "g1" (some 0) (some 10) m = true ∧ m.user_id = "u1")
    ∧ ((1 : Int)
        = ((([⟨"u1", "g1", "c", "m1", [], 5⟩] : List Message).filter
            (msgMatch "g1" (some 0) (some 10))).filter
            (fun m => m.user_id == "u1")).length) :=
  (get_guild_leaderboards_spec [] [⟨"u1", "g1", "c", "m1", [], 5⟩] [] [] "g1"
      (some 0) (some 10)).2.1.2.2 ("u1", "Unknown", 1) (by decide)

/-! ### db.py : voice session lifecycle -/

/-- The open sessions of a (user, guild): the `find_one` filter
`{user_id, guild_id, left_at: None}`. -/
def openSessions (db : List VoiceSession) (u g : String) : List VoiceSession :=
  db.filter (fun s => s.user_id == u && s.guild_id == g && s.left_at.isNone)

/-- Fold step keeping the candidate with the greatest `joined_at` (the first
such candidate on ties), modelling `sort=[("joined_at", -1)]` + `find_one`. -/
def maxJoinedStep (acc : Option VoiceSession) (s : VoiceSession) : Option VoiceSession :=
  match acc with
  | none => some s
  | some b => if b.joined_at.instant < s.joined_at.instant then some s else some b

/-- `find_one({user_id, guild_id, left_at: None}, sort=[("joined_at", -1)])`. -/
def findLatestOpen (db : List VoiceSession) (u g : String) : Option VoiceSession :=
  (openSessions db u g).foldl maxJoinedStep none

/-- `start_voice_session` (db.py): insert a fresh open session document
(`sid` models the generated `_id`, `now` the UTC instant in microseconds). -/
def start_voice_session (db : List VoiceSession) (u g cid cname : String)
    (now : Int) (sid : Nat) : List VoiceSession :=
  db ++ [⟨sid, u, g, cid, cname, ⟨now, some 0⟩, none, none⟩]

/-- `end_voice_session` (db.py): find the most recently joined open session
of the pair; if none, do nothing; else normalise a naive `joined_at` to UTC,
set `left_at = now` and `duration_seconds = int((now - joined_at)
.total_seconds())` — exact integer arithmetic in microseconds, `int()` being
truncation (`Int.tdiv`). -/
def end_voice_session (db : List VoiceSession) (u g : String) (now : Int) :
    List VoiceSession :=
  match findLatestOpen db u g with
  | none => db
  | some s =>
    let joined := if s.joined_at.tz.isNone then { s.joined_at with tz := some 0 }
                  else s.joined_at
    let duration := Int.tdiv (now - joined.instant) 1000000
    db.map (fun r => if r.sid == s.sid then
      { r with left_at := some ⟨now, some 0⟩, duration_seconds := some duration }
      else r)

theorem foldl_maxJoinedStep_some (l : List VoiceSession) :
    ∀ b : VoiceSession,
      ∃ m, l.foldl maxJoinedStep (some b) = some m
        ∧ (m = b ∨ m ∈ l)
        ∧ b.joined_at.instant ≤ m.joined_at.instant
        ∧ ∀ x ∈ l, x.joined_at.instant ≤ m.joined_at.instant := by
  induction l with
  | nil =>
    intro b
    exact ⟨b, rfl, Or.inl rfl, le_refl _, by simp⟩
  | cons s t ih =>
    intro b
    simp only [List.foldl_cons, maxJoinedStep]
    by_cases hlt : b.joined_at.instant < s.joined_at.instant
    · rw [if_pos hlt]
      obtain ⟨m, hm, hmem, hle, hall⟩ := ih s
      refine ⟨m, hm, ?_, le_of_lt (lt_of_lt_of_le hlt hle), ?_⟩
      · rcases hmem with rfl | h
        · exact Or.inr (by simp)
        · exact Or.inr (List.mem_cons_of_mem _ h)
      · intro x hx
        rcases List.mem_cons.mp hx with rfl | hx
        · exact hle
        · exact hall x hx
    · rw [if_neg hlt]
      obtain ⟨m, hm, hmem, hle, hall⟩ := ih b
      refine ⟨m, hm, ?_, hle, ?_⟩
      · rcases hmem with rfl | h
        · exact Or.inl rfl
        · exact Or.inr (List.mem_cons_of_mem _ h)
      · intro x hx
        rcases List.mem_cons.mp hx with rfl | hx
        · exact le_trans (not_lt.mp hlt) hle
        · exact hall x hx

theorem findLatestOpen_spec {db : List VoiceSession} {u g : String} {s : VoiceSession}
    (h : findLatestOpen db u g = some s) :
    s ∈ openSessions db u g
    ∧ ∀ x ∈ openSessions db u g, x.joined_at.instant ≤ s.joined_at.instant := by
  unfold findLatestOpen at h
  cases hol : openSessions db u g with
  | nil => rw [hol] at h; exact absurd h (by simp)
  | cons c t =>
    rw [hol] at h
    simp only [List.foldl_cons] at h
    obtain ⟨m, hm, hmem, hle, hall⟩ := foldl_maxJoinedStep_some t c
    rw [show maxJoinedStep none c = some c from rfl, hm] at h
    obtain rfl : m = s := by injection h
    constructor
    · rcases hmem with rfl | h'
      · exact List.mem_cons_self _ _
      · exact List.mem_cons_of_mem _ h'
    · intro x hx
      rcases List.mem_cons.mp hx with rfl | hx
      · exact hle
      · exact hall x hx

theorem normalize_instant (d : PyDt) :
    (if d.tz.isNone then { d with tz := some 0 } else d).instant = d.instant := by
  cases htz : d.tz <;> simp [PyDt.instant, htz]

/-- C6: ending a voice session with no open session for the (user, guild) is
a no-op (no document created or modified, no error — the function is total
and returns the store unchanged); otherwise the open session with the
greatest `joined_at` (a naive stored `joined_at` read as UTC) is selected
and gets `left_at = now` and `duration_seconds = ⌊(now − joined_at)⌋` in
whole seconds; and starting then ending a session yields
`duration_seconds = ⌊end − start⌋`. -/
theorem end_voice_session_spec (db : List VoiceSession) (u g : String) (now : Int) :
    (findLatestOpen db u g = none → end_voice_session db u g now = db)
    ∧ (∀ s, findLatestOpen db u g = some s →
        s ∈ db ∧ s.user_id = u ∧ s.guild_id = g ∧ s.left_at = none
        ∧ (∀ x ∈ db, x.user_id = u → x.guild_id = g → x.left_at = none →
            x.joined_at.instant ≤ s.joined_at.instant)
        ∧ (end_voice_session db u g now).length = db.length
        ∧ (∀ r ∈ db, r.sid ≠ s.sid → r ∈ end_voice_session db u g now)
        ∧ (0 ≤ now - s.joined_at.instant →
            { s with left_at := some ⟨now, some 0⟩,
                     duration_seconds :=
                       some (Int.fdiv (now - s.joined_at.instant) 1000000) }
              ∈ end_voice_session db u g now))
    ∧ (∀ cid cname sid t₁ t₂, openSessions db u g = [] → t₁ ≤ t₂ →
        ∃ r ∈ end_voice_session (start_voice_session db u g cid cname t₁ sid) u g t₂,
          r.sid = sid ∧ r.left_at = some ⟨t₂, some 0⟩
          ∧ r.duration_seconds = some (Int.fdiv (t₂ - t₁) 1000000)) := by
  refine ⟨?_, ?_, ?_⟩
  · intro h
    unfold end_voice_session
    rw [h]
  · intro s hs
    obtain ⟨hmemO, hmax⟩ := findLatestOpen_spec hs
    obtain ⟨hsdb, hcond⟩ := List.mem_filter.mp hmemO
    simp only [Bool.and_eq_true, beq_iff_eq, Option.isNone_iff_eq_none] at hcond
    obtain ⟨⟨hu, hg⟩, hnone⟩ := hcond
    have hend : end_voice_session db u g now
        = db.map (fun r => if r.sid == s.sid then
            { r with left_at := some ⟨now, some 0⟩,
                     duration_seconds := some (Int.tdiv
                       (now - (if s.joined_at.tz.isNone then { s.joined_at with tz := some 0 }
                               else s.joined_at).instant) 1000000) }
            else r) := by
      unfold end_voice_session
      rw [hs]
    refine ⟨hsdb, hu, hg, hnone, ?_, ?_, ?_, ?_⟩
    · intro x hx hxu hxg hxn
      refine hmax x (List.mem_filter.mpr ⟨hx, ?_⟩)
      simp [hxu, hxg, hxn]
    · rw [hend, List.length_map]
    · intro r hr hrsid
      rw [hend]
      refine List.mem_map.mpr ⟨r, hr, ?_⟩
      rw [if_neg (by simpa using hrsid)]
    · intro hΔ
      have hdiv : Int.tdiv (now - s.joined_at.instant) 1000000
          = Int.fdiv (now - s.joined_at.instant) 1000000 := by
        rw [Int.tdiv_eq_ediv hΔ (by norm_num), Int.fdiv_eq_ediv _ (by norm_num)]
      rw [hend]
      refine List.mem_map.mpr ⟨s, hsdb, ?_⟩
      rw [if_pos (by simp), normalize_instant, hdiv]
  · intro cid cname sid t₁ t₂ hop hle
    have hopen : openSessions
        (start_voice_session db u g cid cname t₁ sid) u g
        = [⟨sid, u, g, cid, cname, ⟨t₁, some 0⟩, none, none⟩] := by
      unfold openSessions at hop ⊢
      unfold start_voice_session
      rw [List.filter_append, hop]
      simp
    have hfind : findLatestOpen (start_voice_session db u g cid cname t₁ sid) u g
        = some ⟨sid, u, g, cid, cname, ⟨t₁, some 0⟩, none, none⟩ := by
      unfold findLatestOpen
      rw [hopen]
      rfl
    have hdiv : Int.tdiv (t₂ - t₁) 1000000 = Int.fdiv (t₂ - t₁) 1000000 := by
      rw [Int.tdiv_eq_ediv (by omega) (by norm_num), Int.fdiv_eq_ediv _ (by norm_num)]
    refine ⟨⟨sid, u, g, cid, cname, ⟨t₁, some 0⟩, some ⟨t₂, some 0⟩,
        some (Int.fdiv (t₂ - t₁) 1000000)⟩, ?_, rfl, rfl, rfl⟩
    unfold end_voice_session
    rw [hfind]
    refine List.mem_map.mpr
      ⟨⟨sid, u, g, cid, cname, ⟨t₁, some 0⟩, none, none⟩, by simp [start_voice_session], ?_⟩
    rw [if_pos (by simp)]
    simp only [PyDt.instant]
    norm_num [hdiv]

/-- Witness for C6: an empty store, one session started at instant 0 and
ended at 2.5 seconds (2 500 000 µs) later, closing with 2 whole seconds. -/
theorem end_voice_session_spec_witness :
    ∃ r ∈ end_voice_session (start_voice_session [] "u" "g" "c" "General" 0 1)
        "u" "g" 2500000,
      r.sid = 1 ∧ r.left_at = some ⟨2500000, some 0⟩
      ∧ r.duration_seconds = some (Int.fdiv (2500000 - 0) 1000000) :=
  (end_voice_session_spec [] "u" "g" 2500000).2.2 "c" "General" 1 0 2500000 rfl
    (by norm_num)
